import Mathlib

/-!
Verification of the `fabricext` release deploy strategy
(`src/fabricext/releases/release.py`).

The remote host filesystem is modelled shallowly: a path is a list of
components (`os.path.join a b` appends the component `b`; the base path is
one opaque root component), the host state is the set of existing
directories plus the symlink table, and each fabric `run`/`exists` call of
the source is an explicit operation on that state.  Release names are
plain strings compared lexicographically by code point, exactly as
Python 2 compares `str` values in `sorted()`.
-/

/-- Lexicographic strict order on char lists by code point, as Python
compares strings. -/
def charListLt : List Char → List Char → Bool
  | [], [] => false
  | [], _ :: _ => true
  | _ :: _, [] => false
  | a :: as, b :: bs =>
    if a < b then true else if b < a then false else charListLt as bs

/-- Lexicographic non-strict order on char lists by code point. -/
def charListLe : List Char → List Char → Bool
  | [], _ => true
  | _ :: _, [] => false
  | a :: as, b :: bs =>
    if a < b then true else if b < a then false else charListLe as bs

/-- Lexicographic strict string comparison (Python `<` on `str`). -/
def strLt (a b : String) : Bool := charListLt a.data b.data

/-- Lexicographic non-strict string comparison (Python `<=` on `str`),
the order `sorted()` sorts by. -/
def strLe (a b : String) : Bool := charListLe a.data b.data

/-- The ordering relation used to model Python `sorted()` on release
names. -/
def strLeR : String → String → Prop := fun a b => strLe a b = true

instance : DecidableRel strLeR :=
  fun a b => inferInstanceAs (Decidable (strLe a b = true))

/-- A remote path, as its components: `os.path.join a b` appends the
component `b`; the configured base path is one opaque root component. -/
abbrev RPath := List String

/-- `underPath p q` holds when `q` is `p` itself or lies inside the
subtree rooted at `p`; `rm -rf p` removes exactly such paths. -/
def underPath : RPath → RPath → Bool
  | [], _ => true
  | _ :: _, [] => false
  | a :: as, b :: bs => decide (a = b) && underPath as bs

/-- The remote host state: existing directories and the symlink table
(link location paired with its target). -/
structure FS where
  dirs : List RPath
  links : List (RPath × RPath)
deriving Repr, DecidableEq

/-- `fabric.contrib.files.exists`: the path is a directory or a symlink
location. -/
def pathExists (fs : FS) (p : RPath) : Bool :=
  decide (p ∈ fs.dirs) || fs.links.any (fun e => decide (e.1 = p))

/-- `run('mkdir -p p')`: create the directory if it is missing. -/
def FS.mkdirP (fs : FS) (p : RPath) : FS :=
  if pathExists fs p then fs else { fs with dirs := p :: fs.dirs }

/-- `run('mkdir p')` (the source only issues it after a failed existence
check). -/
def FS.mkdir (fs : FS) (p : RPath) : FS :=
  { fs with dirs := p :: fs.dirs }

/-- `run('rm -rf p')`: remove the subtree rooted at `p`, directories and
symlink locations alike. -/
def FS.rmRf (fs : FS) (p : RPath) : FS :=
  { dirs := fs.dirs.filter (fun q => ! underPath p q),
    links := fs.links.filter (fun e => ! underPath p e.1) }

/-- `run('ln -s target loc')` (the source only issues it after a failed
existence check on `loc`). -/
def FS.lnS (fs : FS) (target loc : RPath) : FS :=
  { fs with links := (loc, target) :: fs.links }

/-- `run('ln -nfs target loc')`: force-replace the symlink at `loc`. -/
def FS.lnNfs (fs : FS) (target loc : RPath) : FS :=
  { fs with links := (loc, target) :: fs.links.filter (fun e => ! decide (e.1 = loc)) }

/-- The target of the symlink at `p`, if one exists. -/
def lookupLink (fs : FS) (p : RPath) : Option RPath :=
  (fs.links.find? (fun e => decide (e.1 = p))).map (fun e => e.2)

/-- A calendar date, as `datetime.date` holds it. -/
structure Date where
  year : Nat
  month : Nat
  day : Nat
deriving Repr, DecidableEq

/-- Zero-pad a numeral to the given width, as `datetime` formats date
fields. -/
def padNum (width n : Nat) : String :=
  let s := toString n
  String.mk (List.replicate (width - s.length) '0') ++ s

/-- `date.isoformat()`: `YYYY-MM-DD` with zero-padded fields. -/
def Date.isoformat (d : Date) : String :=
  padNum 4 d.year ++ "-" ++ padNum 2 d.month ++ "-" ++ padNum 2 d.day

/-- The `Release` manager state (`Release.__init__` fields).  The
`shared` list, the derived paths and the lazily cached release name
mirror the Python attributes of the same names. -/
structure Release where
  base_path : RPath
  shared : List String
  current_rel : Option String
  previous_rel : Option String
  release_path : RPath
  current_path : RPath
  shared_path : RPath
deriving Repr, DecidableEq

/-- `Release.__init__(base_path, shared=None)`: derive the `releases`,
`current` and `shared` paths and default the shared names to `['log']`. -/
def Release.init (base_path : String) (shared : Option (List String)) : Release :=
  { base_path := [base_path]
    shared := shared.getD ["log"]
    current_rel := none
    previous_rel := none
    release_path := [base_path, "releases"]
    current_path := [base_path, "current"]
    shared_path := [base_path, "shared"] }

/-- `Release._gen_rel`: the release name is the ISO date, a dot, and the
seconds since local midnight rendered with no zero padding. -/
def Release._gen_rel (d : Date) (hour minute second : Nat) : String :=
  let seconds := second + minute * 60 + hour * 3600
  d.isoformat ++ "." ++ toString seconds

/-- `Release.current_release`: return the cached release name, or
generate one from the clock and cache it.  The clock (`datetime.now()` /
`date.today()`) is passed explicitly as date, hour, minute, second. -/
def Release.current_release (r : Release) (d : Date) (hh mm ss : Nat) :
    Release × String :=
  match r.current_rel with
  | some rel => (r, rel)
  | none =>
    let rel := Release._gen_rel d hh mm ss
    ({ r with current_rel := some rel }, rel)

/-- `Release.current_release_path`: `os.path.join(release_path,
current_release())`. -/
def Release.current_release_path (r : Release) (d : Date) (hh mm ss : Nat) :
    Release × RPath :=
  let c := r.current_release d hh mm ss
  (c.1, c.1.release_path ++ [c.2])

/-- The name a directory entry contributes to `find * -maxdepth 0 -type d`
run inside `root`: the last component when the entry is a direct child of
`root`, nothing otherwise. -/
def childName (root : RPath) (p : RPath) : Option String :=
  if underPath root p && p.length == root.length + 1 then p.getLast? else none

/-- `Release.releases`: list the direct child directories of the release
path, sorted ascending as `sorted()` sorts strings.  This is the
listing's value on a non-empty release path; the remote command's
nonzero exit when the listing is empty is modelled separately by
`Release.releases_run`. -/
def Release.releases (r : Release) (fs : FS) : List String :=
  List.insertionSort strLeR (fs.dirs.filterMap (childName r.release_path))

/-- The listing as the remote command actually behaves:
`run('cd {release_path} && find * -maxdepth 0 -type d')` exits nonzero
when `release_path` is missing (the `cd` fails) or holds no entries (the
shell leaves `*` unmatched and `find` fails on the literal `*`), and
fabric's `run` with its default `warn_only=False` then aborts the task
fatally.  Modelled as `Except.error` carrying the untouched host state;
a non-empty listing returns the sorted child names of
`Release.releases`. -/
def Release.releases_run (r : Release) (fs : FS) : Except FS (List String) :=
  let rels := r.releases fs
  if rels.isEmpty then Except.error fs else Except.ok rels

/-- `Release.link_shared(name, create=False)`: resolve the link location
inside the current release and the shared target; a missing shared
target is created when `create` holds and otherwise aborts fatally
(`fabric.utils.error`), modelled as `Except.error` carrying the host
state at the abort; then symlink the shared target into the release
unless the location already exists. -/
def Release.link_shared (r : Release) (fs : FS) (d : Date) (hh mm ss : Nat)
    (name : String) (create : Bool) : Release × Except FS FS :=
  let cp := r.current_release_path d hh mm ss
  let rel := cp.2 ++ [name]
  let shared := r.shared_path ++ [name]
  if pathExists fs shared then
    (cp.1, Except.ok (if pathExists fs rel then fs else FS.lnS fs shared rel))
  else if create then
    let fs1 := FS.mkdir fs shared
    (cp.1, Except.ok (if pathExists fs1 rel then fs1 else FS.lnS fs1 shared rel))
  else
    (cp.1, Except.error fs)

/-- `Release.cleanup`: fetch the sorted release list; when more than 5
entries exist, reverse it, drop the first 5 of the reversed list (the
newest 5), and `rm -rf` each remaining entry (Python 2 `map` runs the
deletes eagerly). -/
def Release.cleanup (r : Release) (fs : FS) : FS :=
  let rels := r.releases fs
  if 5 < rels.length then
    (rels.reverse.drop 5).foldl
      (fun f dname => FS.rmRf f (r.release_path ++ [dname])) fs
  else fs

/-- `Release.symlink`: remove `current_path` when it exists, then
`ln -nfs` it at the current release path. -/
def Release.symlink (r : Release) (fs : FS) (d : Date) (hh mm ss : Nat) :
    Release × FS :=
  let fs1 := if pathExists fs r.current_path then FS.rmRf fs r.current_path else fs
  let cp := r.current_release_path d hh mm ss
  (cp.1, FS.lnNfs fs1 cp.2 r.current_path)

/-- `Release.rollback_release`: with fewer than 2 releases, warn and
return `False` without touching the host; otherwise retire the last
release in sorted order (`rels[-1]`), make the second-to-last
(`rels[-2]`) the cached current release, re-point the `current` symlink
at it, and `rm -rf` the retired release directory. -/
def Release.rollback_release (r : Release) (fs : FS) (d : Date) (hh mm ss : Nat) :
    Release × FS × Bool :=
  let rels := r.releases fs
  if rels.length < 2 then (r, fs, false)
  else
    let old_rel := rels.getD (rels.length - 1) ""
    let r1 := { r with current_rel := some (rels.getD (rels.length - 2) "") }
    let sy := r1.symlink fs d hh mm ss
    (sy.1, FS.rmRf sy.2 (r.release_path ++ [old_rel]), true)

/-- `Release.rollback_release` with the listing command's failure path:
`rels = self.releases()` is the first statement, so when the listing
command exits nonzero the whole task aborts fatally before the
fewer-than-2 check can warn and return the sentinel. -/
def Release.rollback_release_run (r : Release) (fs : FS) (d : Date) (hh mm ss : Nat) :
    Except FS (Release × FS × Bool) :=
  match r.releases_run fs with
  | Except.error f => Except.error f
  | Except.ok _ => Except.ok (r.rollback_release fs d hh mm ss)

/-- `Release.revert_release`: `rm -rf` the path held in the shared
`env.base_dir` slot at the moment of the call. -/
def Release.revert_release (envBaseDir : RPath) (fs : FS) : FS :=
  FS.rmRf fs envBaseDir

/-- The compensating actions the source ever registers on the rollback
stack.  `create_release` pushes one closure,
`lambda: execute_pseudo_task(fn=self.revert_release)`; it captures no
path, so its effect is determined only when it runs. -/
inductive RbAction
  | revertRelease
deriving Repr, DecidableEq

/-- Run one registered compensating action against the host state,
reading the shared `env.base_dir` slot as it stands at that moment. -/
def runRbAction (envBaseDir : RPath) (fs : FS) : RbAction → FS
  | RbAction.revertRelease => Release.revert_release envBaseDir fs

/-- Modelled from the spec: the `Transaction` base class
(`fabricext.releases.transaction`, not in the source tree).
`on_rollback` appends an action to the stack; on a failing scope exit
the stack is executed once in reverse registration order (LIFO) and
cleared; on a clean exit it is discarded without running anything. -/
def Transaction.drain (stack : List RbAction) (envBaseDir : RPath) (fs : FS) : FS :=
  stack.reverse.foldl (fun f a => runRbAction envBaseDir f a) fs

/-- The shared-resource linking loop of `create_release`: each name in
`self.shared` is linked with `create=True`.  `failAt` injects a remote
failure at the given loop index, before that name's commands run,
modelling a deploy that dies while linking. -/
def Release.linkLoop (r : Release) (d : Date) (hh mm ss : Nat)
    (failAt : Option Nat) : List String → Nat → FS → FS × Bool
  | [], _, fs => (fs, true)
  | n :: rest, i, fs =>
    if failAt = some i then (fs, false)
    else
      let fs1 := match (r.link_shared fs d hh mm ss n true).2 with
        | Except.ok f => f
        | Except.error f => f
      Release.linkLoop r d hh mm ss failAt rest (i + 1) fs1

/-- Outcome of one scoped deploy: the manager, the host state, the value
left in the shared `env.base_dir` slot, and whether the scope exited
cleanly. -/
structure DeployResult where
  r : Release
  fs : FS
  envBaseDir : RPath
  ok : Bool
deriving Repr, DecidableEq

/-- One scoped deploy (`with release(...)`): `__enter__` runs `setup`
(fail fast when the base path is missing, create the releases and shared
paths when absent, then `create_release`: set `env.base_dir` to the new
release path, `mkdir -p` it, register the compensating
`revert_release`, and link each shared name with `create=True`); the
caller's body then runs; `__exit__` on a clean body promotes via
`symlink` and then prunes via `cleanup`, while on a failure it reports
and drains the rollback stack (`Transaction.__exit__`, modelled from the
spec).  `failAt` injects a failure while linking; `body` returns the
host state it leaves behind and whether it succeeded. -/
def Release.runScoped (r : Release) (fs : FS) (d : Date) (hh mm ss : Nat)
    (failAt : Option Nat) (body : FS → FS × Bool) : DeployResult :=
  if pathExists fs r.base_path then
    let fs1 := FS.mkdirP (FS.mkdirP fs r.release_path) r.shared_path
    let rp := r.current_release_path d hh mm ss
    let fs2 := FS.mkdirP fs1 rp.2
    let lk := Release.linkLoop rp.1 d hh mm ss failAt rp.1.shared 0 fs2
    if lk.2 then
      let bd := body lk.1
      if bd.2 then
        let sy := rp.1.symlink bd.1 d hh mm ss
        ⟨sy.1, sy.1.cleanup sy.2, rp.2, true⟩
      else
        ⟨rp.1, Transaction.drain [RbAction.revertRelease] rp.2 bd.1, rp.2, false⟩
    else
      ⟨rp.1, Transaction.drain [RbAction.revertRelease] rp.2 lk.1, rp.2, false⟩
  else
    ⟨r, fs, [], false⟩

/-- The deletion loop of `cleanup`, as a named fold for reasoning. -/
def deleteRels (root : RPath) (ds : List String) (fs : FS) : FS :=
  ds.foldl (fun f dname => FS.rmRf f (root ++ [dname])) fs

theorem charListLe_cons_elim {a b : Char} {as bs : List Char}
    (h : charListLe (a :: as) (b :: bs) = true) :
    a < b ∨ (a = b ∧ charListLe as bs = true) := by
  by_cases hab : a < b
  · exact Or.inl hab
  · by_cases hba : b < a
    · simp [charListLe, hab, hba] at h
    · have heq : a = b := le_antisymm (le_of_not_lt hba) (le_of_not_lt hab)
      exact Or.inr ⟨heq, by simpa [charListLe, hab, hba] using h⟩

theorem charListLe_cons_of_lt {a b : Char} {as bs : List Char} (h : a < b) :
    charListLe (a :: as) (b :: bs) = true := by
  simp [charListLe, h]

theorem charListLe_cons_of_eq {a : Char} {as bs : List Char}
    (h : charListLe as bs = true) :
    charListLe (a :: as) (a :: bs) = true := by
  simp [charListLe, h]

theorem charListLe_total : ∀ (as bs : List Char),
    charListLe as bs = true ∨ charListLe bs as = true
  | [], _ => Or.inl rfl
  | _ :: _, [] => Or.inr rfl
  | a :: as, b :: bs => by
    rcases lt_trichotomy a b with h | h | h
    · exact Or.inl (charListLe_cons_of_lt h)
    · subst h
      rcases charListLe_total as bs with ih | ih
      · exact Or.inl (charListLe_cons_of_eq ih)
      · exact Or.inr (charListLe_cons_of_eq ih)
    · exact Or.inr (charListLe_cons_of_lt h)

theorem charListLe_trans : ∀ {as bs cs : List Char},
    charListLe as bs = true → charListLe bs cs = true → charListLe as cs = true
  | [], _, _, _, _ => rfl
  | _ :: _, [], _, h, _ => by simp [charListLe] at h
  | _ :: _, _ :: _, [], _, h => by simp [charListLe] at h
  | a :: as, b :: bs, c :: cs, h1, h2 => by
    rcases charListLe_cons_elim h1 with hab | ⟨hab, hr1⟩
    · rcases charListLe_cons_elim h2 with hbc | ⟨hbc, _⟩
      · exact charListLe_cons_of_lt (lt_trans hab hbc)
      · exact charListLe_cons_of_lt (hbc ▸ hab)
    · subst hab
      rcases charListLe_cons_elim h2 with hbc | ⟨hbc, hr2⟩
      · exact charListLe_cons_of_lt hbc
      · subst hbc
        exact charListLe_cons_of_eq (charListLe_trans hr1 hr2)

theorem charListLe_antisymm : ∀ {as bs : List Char},
    charListLe as bs = true → charListLe bs as = true → as = bs
  | [], [], _, _ => rfl
  | [], _ :: _, _, h => by simp [charListLe] at h
  | _ :: _, [], h, _ => by simp [charListLe] at h
  | a :: as, b :: bs, h1, h2 => by
    rcases charListLe_cons_elim h1 with hab | ⟨hab, hr1⟩
    · rcases charListLe_cons_elim h2 with hba | ⟨hba, _⟩
      · exact absurd hba (lt_asymm hab)
      · exact absurd hab (by simp [hba])
    · subst hab
      rcases charListLe_cons_elim h2 with hba | ⟨_, hr2⟩
      · exact absurd hba (lt_irrefl a)
      · rw [charListLe_antisymm hr1 hr2]

@[instance] theorem strLeR_isTotal : IsTotal String strLeR :=
  ⟨fun a b => charListLe_total a.data b.data⟩

@[instance] theorem strLeR_isTrans : IsTrans String strLeR :=
  ⟨fun _ _ _ h1 h2 => charListLe_trans h1 h2⟩

@[instance] theorem strLeR_isAntisymm : IsAntisymm String strLeR :=
  ⟨fun _ _ h1 h2 => String.ext (charListLe_antisymm h1 h2)⟩

/-- C1: the chronological-ordering claim fails on the code.  Two ids
generated on the same date at seconds 9 and 10 since midnight compare
lexicographically in the reverse of chronological order, because
`_gen_rel` does not zero-pad the seconds field: the later id
`2013-01-01.10` is strictly less than the earlier id `2013-01-01.9`. -/
theorem C1_gen_rel_ordering_bug :
    Release._gen_rel ⟨2013, 1, 1⟩ 0 0 9 = "2013-01-01.9" ∧
    Release._gen_rel ⟨2013, 1, 1⟩ 0 0 10 = "2013-01-01.10" ∧
    9 < 10 ∧
    strLt (Release._gen_rel ⟨2013, 1, 1⟩ 0 0 10)
      (Release._gen_rel ⟨2013, 1, 1⟩ 0 0 9) = true ∧
    strLt (Release._gen_rel ⟨2013, 1, 1⟩ 0 0 9)
      (Release._gen_rel ⟨2013, 1, 1⟩ 0 0 10) = false := by
  decide

theorem underPath_iff_exists : ∀ (root p : RPath),
    underPath root p = true ↔ ∃ t, p = root ++ t
  | [], p => by simp [underPath]
  | _ :: _, [] => by simp [underPath]
  | a :: as, b :: bs => by
    simp only [underPath, Bool.and_eq_true, decide_eq_true_eq]
    constructor
    · rintro ⟨rfl, h⟩
      obtain ⟨t, rfl⟩ := (underPath_iff_exists as bs).mp h
      exact ⟨t, rfl⟩
    · rintro ⟨t, ht⟩
      rw [List.cons_append] at ht
      injection ht with h1 h2
      exact ⟨h1.symm, (underPath_iff_exists as bs).mpr ⟨t, h2⟩⟩

theorem underPath_self (p : RPath) : underPath p p = true :=
  (underPath_iff_exists p p).mpr ⟨[], by simp⟩

theorem underPath_append (root t : RPath) : underPath root (root ++ t) = true :=
  (underPath_iff_exists root (root ++ t)).mpr ⟨t, rfl⟩

theorem underPath_length_le {root p : RPath} (h : underPath root p = true) :
    root.length ≤ p.length := by
  obtain ⟨t, rfl⟩ := (underPath_iff_exists root p).mp h
  simp [List.length_append]

theorem underPath_eq_false_of_length_lt {root p : RPath}
    (h : p.length < root.length) : underPath root p = false := by
  by_contra hc
  have := underPath_length_le (Bool.of_not_eq_false hc)
  omega

theorem underPath_concat_iff {root : RPath} {d n : String} :
    underPath (root ++ [d]) (root ++ [n]) = true ↔ d = n := by
  constructor
  · intro h
    obtain ⟨t, ht⟩ := (underPath_iff_exists _ _).mp h
    rw [List.append_assoc] at ht
    have h2 := List.append_cancel_left ht
    rw [List.singleton_append] at h2
    injection h2 with h3 _
    exact h3.symm
  · rintro rfl
    exact underPath_self _

theorem childName_append (root : RPath) (n : String) :
    childName root (root ++ [n]) = some n := by
  simp [childName, underPath_append, List.getLast?_concat, List.length_append]

theorem childName_eq_some {root p : RPath} {n : String}
    (h : childName root p = some n) : p = root ++ [n] := by
  unfold childName at h
  split at h
  case isFalse => exact absurd h (by simp)
  case isTrue hc =>
    rw [Bool.and_eq_true] at hc
    obtain ⟨hu, hl⟩ := hc
    obtain ⟨t, rfl⟩ := (underPath_iff_exists root _).mp hu
    have hlen : t.length = 1 := by
      rw [beq_iff_eq] at hl
      have : (root ++ t).length = root.length + 1 := hl
      rw [List.length_append] at this
      omega
    obtain ⟨x, rfl⟩ := List.length_eq_one.mp hlen
    rw [List.getLast?_concat] at h
    injection h with h2
    rw [h2]

theorem mem_rmRf_dirs {fs : FS} {q p : RPath} :
    p ∈ (FS.rmRf fs q).dirs ↔ p ∈ fs.dirs ∧ underPath q p = false := by
  simp [FS.rmRf, List.mem_filter, Bool.not_eq_true']

theorem deleteRels_dirs_subset (root : RPath) (ds : List String) :
    ∀ (fs : FS) (p : RPath), p ∈ (deleteRels root ds fs).dirs → p ∈ fs.dirs := by
  induction ds with
  | nil => intro fs p h; exact h
  | cons e es ih =>
    intro fs p h
    have := ih (FS.rmRf fs (root ++ [e])) p h
    exact (mem_rmRf_dirs.mp this).1

theorem deleteRels_removes (root : RPath) (ds : List String) {dd : String}
    (hdd : dd ∈ ds) :
    ∀ (fs : FS) (p : RPath), underPath (root ++ [dd]) p = true →
      p ∉ (deleteRels root ds fs).dirs := by
  induction ds with
  | nil => cases hdd
  | cons e es ih =>
    intro fs p hp hmem
    rcases List.mem_cons.mp hdd with heq | htail
    · subst heq
      have h1 := deleteRels_dirs_subset root es _ p hmem
      rw [mem_rmRf_dirs] at h1
      simp [h1.2] at hp
    · exact ih htail _ p hp hmem

theorem filterMap_childName_rmRf (root : RPath) (d : String) (dirs : List RPath) :
    (dirs.filter (fun q => ! underPath (root ++ [d]) q)).filterMap (childName root) =
    (dirs.filterMap (childName root)).filter (fun n => ! decide (n = d)) := by
  induction dirs with
  | nil => rfl
  | cons p rest ih =>
    by_cases hu : underPath (root ++ [d]) p = true
    · cases hcn : childName root p with
      | none =>
        simp only [List.filter_cons, List.filterMap_cons, hu, hcn, Bool.not_true,
          Bool.false_eq_true, if_false]
        exact ih
      | some n =>
        have hpn := childName_eq_some hcn
        subst hpn
        have hnd : n = d := (underPath_concat_iff.mp hu).symm
        subst hnd
        simp only [List.filter_cons, List.filterMap_cons, hu, hcn, Bool.not_true,
          Bool.false_eq_true, if_false, eq_self_iff_true, decide_True]
        exact ih
    · have hu' : underPath (root ++ [d]) p = false := Bool.eq_false_iff.mpr hu
      cases hcn : childName root p with
      | none =>
        simp only [List.filter_cons, List.filterMap_cons, hu', hcn, Bool.not_false,
          if_true]
        exact ih
      | some n =>
        have hpn := childName_eq_some hcn
        have hnd : ¬ n = d := by
          rintro rfl
          rw [hpn, underPath_self] at hu'
          cases hu'
        simp only [List.filter_cons, List.filterMap_cons, hu', hcn, Bool.not_false,
          if_true, hnd, decide_False, Bool.not_false]
        rw [ih]

theorem filterMap_childName_deleteRels (root : RPath) (ds : List String) :
    ∀ fs : FS, ((deleteRels root ds fs).dirs).filterMap (childName root) =
      (fs.dirs.filterMap (childName root)).filter (fun n => ! decide (n ∈ ds)) := by
  induction ds with
  | nil =>
    intro fs
    have : (fun n : String => ! decide (n ∈ ([] : List String))) = fun _ => true := by
      funext n
      simp
    rw [this, List.filter_true]
    rfl
  | cons e es ih =>
    intro fs
    have h1 : deleteRels root (e :: es) fs = deleteRels root es (FS.rmRf fs (root ++ [e])) := rfl
    rw [h1, ih, show (FS.rmRf fs (root ++ [e])).dirs =
      fs.dirs.filter (fun q => ! underPath (root ++ [e]) q) from rfl]
    rw [filterMap_childName_rmRf, List.filter_filter]
    have h2 : (fun n : String => ! decide (n ∈ es) && ! decide (n = e)) =
        (fun n : String => ! decide (n ∈ e :: es)) := by
      funext n
      by_cases hne : n = e
      · subst hne
        simp
      · by_cases hmem : n ∈ es <;> simp [hne, hmem]
    rw [h2]

/-- The release listing seen through the name extraction: `releases` is
the sorted child-name list. -/
theorem releases_def (r : Release) (fs : FS) :
    r.releases fs = List.insertionSort strLeR (fs.dirs.filterMap (childName r.release_path)) := rfl

theorem releases_sorted (r : Release) (fs : FS) :
    List.Sorted strLeR (r.releases fs) :=
  List.sorted_insertionSort strLeR _

theorem releases_perm (r : Release) (fs : FS) :
    (r.releases fs).Perm (fs.dirs.filterMap (childName r.release_path)) :=
  List.perm_insertionSort strLeR _

/-- C2 (amended): pruning with the fixed retention count 5 keeps at most
5 releases; the retained list is exactly the last 5 entries of the
ascending (lexicographically sorted) release list — the chronologically
newest whenever release names sort chronologically — and every earlier
entry's directory is recursively removed. -/
theorem C2_pruning_keeps_sorted_top5 (r : Release) (fs : FS)
    (hnd : (r.releases fs).Nodup) :
    (r.releases (r.cleanup fs)).length ≤ 5 ∧
    r.releases (r.cleanup fs) = (r.releases fs).drop ((r.releases fs).length - 5) ∧
    (∀ n ∈ (r.releases fs).take ((r.releases fs).length - 5),
      ∀ p, underPath (r.release_path ++ [n]) p = true → p ∉ (r.cleanup fs).dirs) := by
  by_cases hlen : 5 < (r.releases fs).length
  case neg =>
    have h0 : (r.releases fs).length - 5 = 0 := Nat.sub_eq_zero_of_le (Nat.le_of_not_lt hlen)
    have hcl : r.cleanup fs = fs := by
      unfold Release.cleanup
      rw [if_neg hlen]
    rw [hcl, h0]
    exact ⟨Nat.le_of_not_lt hlen, by simp, by simp⟩
  case pos =>
    have hcl : r.cleanup fs = deleteRels r.release_path ((r.releases fs).reverse.drop 5) fs := by
      unfold Release.cleanup deleteRels
      rw [if_pos hlen]
    set rels := r.releases fs with hrels
    set k := rels.length - 5 with hk
    set Del := rels.reverse.drop 5 with hDel
    have hdel_take : Del = (rels.take k).reverse := by
      rw [hDel]
      conv_lhs => rw [← List.take_append_drop k rels]
      rw [List.reverse_append]
      have h5 : (rels.drop k).reverse.length = 5 := by
        rw [List.length_reverse, List.length_drop]
        omega
      rw [← h5, List.drop_left]
    have hmemDel : ∀ n, n ∈ Del ↔ n ∈ rels.take k := by
      intro n
      rw [hdel_take, List.mem_reverse]
    have hfil : rels.filter (fun n => ! decide (n ∈ Del)) = rels.drop k := by
      conv_lhs => rw [← List.take_append_drop k rels]
      rw [List.filter_append]
      have hdisj : List.Disjoint (rels.take k) (rels.drop k) := by
        have hnd2 := hnd
        rw [← List.take_append_drop k rels] at hnd2
        exact (List.nodup_append.mp hnd2).2.2
      have h1 : (rels.take k).filter (fun n => ! decide (n ∈ Del)) = [] := by
        rw [List.filter_eq_nil_iff]
        intro a ha
        simp [(hmemDel a).mpr ha]
      have h2 : (rels.drop k).filter (fun n => ! decide (n ∈ Del)) = rels.drop k := by
        rw [List.filter_eq_self]
        intro a ha
        have hnotin : a ∉ rels.take k := fun hmem => hdisj hmem ha
        have hnotDel : a ∉ Del := fun hmem => hnotin ((hmemDel a).mp hmem)
        simp [hnotDel]
      rw [h1, h2, List.nil_append]
    have hsorted_drop : List.Sorted strLeR (rels.drop k) :=
      List.Pairwise.sublist (List.drop_sublist k rels) (releases_sorted r fs)
    have hfinal : r.releases (r.cleanup fs) = rels.drop k := by
      rw [hcl]
      rw [releases_def, filterMap_childName_deleteRels]
      apply List.eq_of_perm_of_sorted ?_ (List.sorted_insertionSort strLeR _) hsorted_drop
      refine (List.perm_insertionSort strLeR _).trans ?_
      rw [← hfil]
      exact (releases_perm r fs).symm.filter _
    refine ⟨?_, hfinal, ?_⟩
    · rw [hfinal, List.length_drop]
      omega
    · intro n hn p hp
      rw [hcl]
      exact deleteRels_removes r.release_path Del ((hmemDel n).mpr hn) fs p hp

theorem find?_filter_of_pred {α : Type} (l : List α) (p g : α → Bool)
    (h : ∀ x, p x = true → g x = true) :
    (l.filter g).find? p = l.find? p := by
  induction l with
  | nil => rfl
  | cons x xs ih =>
    rw [List.filter_cons]
    by_cases hg : g x = true
    · rw [hg, if_pos rfl, List.find?_cons, List.find?_cons]
      cases hp : p x
      · exact ih
      · rfl
    · have hgf : g x = false := Bool.eq_false_iff.mpr hg
      have hpf : p x = false := by
        cases hp : p x
        · rfl
        · exact absurd (h x hp) hg
      rw [hgf, if_neg (by simp), ih, List.find?_cons, hpf]

theorem lookupLink_rmRf {fs : FS} {q cp : RPath} (h : underPath q cp = false) :
    lookupLink (FS.rmRf fs q) cp = lookupLink fs cp := by
  unfold lookupLink FS.rmRf
  rw [find?_filter_of_pred]
  intro e he
  have he2 : e.1 = cp := of_decide_eq_true he
  rw [he2, h]
  rfl

theorem lookupLink_lnNfs_self (fs : FS) (t loc : RPath) :
    lookupLink (FS.lnNfs fs t loc) loc = some t := by
  unfold lookupLink FS.lnNfs
  rw [List.find?_cons]
  simp

theorem lookupLink_lnS_ne (fs : FS) (t loc cp : RPath) (h : ¬ loc = cp) :
    lookupLink (FS.lnS fs t loc) cp = lookupLink fs cp := by
  unfold lookupLink FS.lnS
  rw [List.find?_cons]
  simp [h]

theorem lookupLink_mkdirP (fs : FS) (p cp : RPath) :
    lookupLink (FS.mkdirP fs p) cp = lookupLink fs cp := by
  unfold FS.mkdirP
  split
  · rfl
  · rfl

theorem lookupLink_mkdir (fs : FS) (p cp : RPath) :
    lookupLink (FS.mkdir fs p) cp = lookupLink fs cp := rfl

theorem current_release_cached {r : Release} {x : String} (h : r.current_rel = some x)
    (d : Date) (hh mm ss : Nat) : r.current_release d hh mm ss = (r, x) := by
  unfold Release.current_release
  rw [h]

theorem current_release_path_cached {r : Release} {x : String} (h : r.current_rel = some x)
    (d : Date) (hh mm ss : Nat) :
    r.current_release_path d hh mm ss = (r, r.release_path ++ [x]) := by
  unfold Release.current_release_path
  rw [current_release_cached h]

theorem symlink_cached {r : Release} {x : String} (h : r.current_rel = some x)
    (fs : FS) (d : Date) (hh mm ss : Nat) :
    r.symlink fs d hh mm ss =
      (r, FS.lnNfs (if pathExists fs r.current_path then FS.rmRf fs r.current_path else fs)
        (r.release_path ++ [x]) r.current_path) := by
  unfold Release.symlink
  rw [current_release_path_cached h]

theorem rollback_release_eq (r : Release) (fs : FS) (d : Date) (hh mm ss : Nat)
    (h : ¬ (r.releases fs).length < 2) :
    r.rollback_release fs d hh mm ss =
      ({ r with current_rel := some ((r.releases fs).getD ((r.releases fs).length - 2) "") },
       FS.rmRf
         (FS.lnNfs (if pathExists fs r.current_path then FS.rmRf fs r.current_path else fs)
           (r.release_path ++ [(r.releases fs).getD ((r.releases fs).length - 2) ""])
           r.current_path)
         (r.release_path ++ [(r.releases fs).getD ((r.releases fs).length - 1) ""]),
       true) := by
  simp only [Release.rollback_release]
  rw [if_neg h, symlink_cached rfl]

/-- C5: on a three-release host `[A, B, C]` (ascending sorted order, the
order the release listing reports) with the `current` symlink at `C`,
`rollback_release` reports success, caches `B` as the manager's current
release, re-points the `current` symlink at `B`'s directory, and
recursively removes `C`'s directory. -/
theorem C5_rollback_to_previous (bp A B C : String) (sh : Option (List String))
    (fs : FS) (d : Date) (hh mm ss : Nat)
    (hrels : (Release.init bp sh).releases fs = [A, B, C])
    (hcur : lookupLink fs [bp, "current"] = some [bp, "releases", C]) :
    ((Release.init bp sh).rollback_release fs d hh mm ss).2.2 = true ∧
    ((Release.init bp sh).rollback_release fs d hh mm ss).1.current_rel = some B ∧
    lookupLink ((Release.init bp sh).rollback_release fs d hh mm ss).2.1 [bp, "current"] =
      some [bp, "releases", B] ∧
    (∀ p, underPath [bp, "releases", C] p = true →
      p ∉ ((Release.init bp sh).rollback_release fs d hh mm ss).2.1.dirs) := by
  have hlen : ¬ ((Release.init bp sh).releases fs).length < 2 := by
    rw [hrels]
    simp
  rw [rollback_release_eq _ _ _ _ _ _ hlen, hrels]
  refine ⟨rfl, rfl, ?_, ?_⟩
  · show lookupLink (FS.rmRf (FS.lnNfs _ _ _) [bp, "releases", C]) [bp, "current"] =
      some [bp, "releases", B]
    rw [lookupLink_rmRf (underPath_eq_false_of_length_lt (by simp))]
    exact lookupLink_lnNfs_self _ _ _
  · intro p hp hmem
    have h2 : underPath [bp, "releases", C] p = false := (mem_rmRf_dirs.mp hmem).2
    rw [hp] at h2
    cases h2

/-- Witness for C5 on a concrete host holding releases a, b, c. -/
theorem C5_rollback_witness :
    ((Release.init "app" none).releases
      ⟨[["app", "releases", "a"], ["app", "releases", "b"], ["app", "releases", "c"]],
       [(["app", "current"], ["app", "releases", "c"])]⟩ = ["a", "b", "c"]) ∧
    (lookupLink
      ⟨[["app", "releases", "a"], ["app", "releases", "b"], ["app", "releases", "c"]],
       [(["app", "current"], ["app", "releases", "c"])]⟩ ["app", "current"] =
      some ["app", "releases", "c"]) ∧
    (((Release.init "app" none).rollback_release
      ⟨[["app", "releases", "a"], ["app", "releases", "b"], ["app", "releases", "c"]],
       [(["app", "current"], ["app", "releases", "c"])]⟩ ⟨2013, 1, 1⟩ 0 0 0).2.2 = true ∧
     ((Release.init "app" none).rollback_release
      ⟨[["app", "releases", "a"], ["app", "releases", "b"], ["app", "releases", "c"]],
       [(["app", "current"], ["app", "releases", "c"])]⟩ ⟨2013, 1, 1⟩ 0 0 0).1.current_rel =
       some "b" ∧
     lookupLink ((Release.init "app" none).rollback_release
      ⟨[["app", "releases", "a"], ["app", "releases", "b"], ["app", "releases", "c"]],
       [(["app", "current"], ["app", "releases", "c"])]⟩ ⟨2013, 1, 1⟩ 0 0 0).2.1
       ["app", "current"] = some ["app", "releases", "b"] ∧
     (∀ p, underPath ["app", "releases", "c"] p = true →
       p ∉ ((Release.init "app" none).rollback_release
        ⟨[["app", "releases", "a"], ["app", "releases", "b"], ["app", "releases", "c"]],
         [(["app", "current"], ["app", "releases", "c"])]⟩ ⟨2013, 1, 1⟩ 0 0 0).2.1.dirs)) :=
  ⟨by decide, by decide,
   C5_rollback_to_previous "app" "a" "b" "c" none _ ⟨2013, 1, 1⟩ 0 0 0 (by decide) (by decide)⟩

/-- C6: the warn-and-no-op claim fails on the code for the zero-release
case.  On a host whose `releases` directory exists but holds no
releases, the listing command `cd releases && find * -maxdepth 0 -type d`
exits nonzero (the shell leaves `*` unmatched) and fabric's `run` aborts
the task fatally, so `rollback_release` errors out before it can warn
and return the `False` sentinel; host state is untouched by the abort.
With exactly one release the claimed behaviour does hold: the manager,
the host state and the sentinel `False` come back unchanged. -/
theorem C6_rollback_zero_releases_fatal :
    (Release.init "app" none).releases_run ⟨[["app"], ["app", "releases"]], []⟩ =
      Except.error ⟨[["app"], ["app", "releases"]], []⟩ ∧
    (Release.init "app" none).rollback_release_run ⟨[["app"], ["app", "releases"]], []⟩
      ⟨2013, 1, 1⟩ 0 0 0 = Except.error ⟨[["app"], ["app", "releases"]], []⟩ ∧
    (Release.init "app" none).rollback_release_run
      ⟨[["app"], ["app", "releases"], ["app", "releases", "a"]], []⟩ ⟨2013, 1, 1⟩ 0 0 0 =
      Except.ok (Release.init "app" none,
        ⟨[["app"], ["app", "releases"], ["app", "releases", "a"]], []⟩, false) :=
  ⟨rfl, rfl, rfl⟩

/-- C7: `link_shared` with a missing shared target and `create=False`
aborts fatally (`fabric.utils.error`) before running any remote mutation:
the host state carried out of the abort is exactly the input state, so in
particular no release directory has been created. -/
theorem C7_link_shared_fatal (r : Release) (fs : FS) (d : Date) (hh mm ss : Nat)
    (name : String)
    (hsh : pathExists fs (r.shared_path ++ [name]) = false) :
    (r.link_shared fs d hh mm ss name false).2 = Except.error fs := by
  simp only [Release.link_shared, hsh]
  rfl

/-- Witness for C7: requesting the default shared name `log` with
creation not permitted on a host where `shared/log` is absent. -/
theorem C7_link_shared_fatal_witness :
    pathExists ⟨[["app"]], []⟩ ((Release.init "app" none).shared_path ++ ["log"]) = false ∧
    ((Release.init "app" none).link_shared ⟨[["app"]], []⟩ ⟨2013, 1, 1⟩ 0 0 0 "log" false).2 =
      Except.error ⟨[["app"]], []⟩ :=
  ⟨by decide, C7_link_shared_fatal (Release.init "app" none) ⟨[["app"]], []⟩
    ⟨2013, 1, 1⟩ 0 0 0 "log" (by decide)⟩

/-- C8: the release id is computed at most once per manager instance and
cached: calling `current_release` again on the manager returned by a
first call yields the same id and leaves the manager unchanged, whatever
the second clock reading is. -/
theorem C8_release_id_cached (r : Release) (d1 : Date) (h1 m1 s1 : Nat)
    (d2 : Date) (h2 m2 s2 : Nat) :
    ((r.current_release d1 h1 m1 s1).1.current_release d2 h2 m2 s2).2 =
      (r.current_release d1 h1 m1 s1).2 ∧
    ((r.current_release d1 h1 m1 s1).1.current_release d2 h2 m2 s2).1 =
      (r.current_release d1 h1 m1 s1).1 := by
  cases hc : r.current_rel with
  | some x =>
    rw [current_release_cached hc d1 h1 m1 s1, current_release_cached hc d2 h2 m2 s2]
    exact ⟨rfl, rfl⟩
  | none =>
    have hfirst : r.current_release d1 h1 m1 s1 =
        ({ r with current_rel := some (Release._gen_rel d1 h1 m1 s1) },
         Release._gen_rel d1 h1 m1 s1) := by
      unfold Release.current_release
      rw [hc]
    rw [hfirst, current_release_cached rfl d2 h2 m2 s2]
    exact ⟨rfl, rfl⟩

/-- C9: after a successful `rollback_release`, the manager's cached
release id is the second-newest pre-rollback name, so later calls to
`current_release` and `current_release_path` refer to the reverted-to
release instead of generating a fresh time-based id. -/
theorem C9_rollback_updates_cache (r : Release) (fs : FS) (d : Date) (hh mm ss : Nat)
    (d2 : Date) (h2 m2 s2 : Nat)
    (h : 2 ≤ (r.releases fs).length) :
    (r.rollback_release fs d hh mm ss).1.current_rel =
      some ((r.releases fs).getD ((r.releases fs).length - 2) "") ∧
    (r.rollback_release fs d hh mm ss).1.current_release d2 h2 m2 s2 =
      ((r.rollback_release fs d hh mm ss).1,
       (r.releases fs).getD ((r.releases fs).length - 2) "") ∧
    ((r.rollback_release fs d hh mm ss).1.current_release_path d2 h2 m2 s2).2 =
      r.release_path ++ [(r.releases fs).getD ((r.releases fs).length - 2) ""] := by
  rw [rollback_release_eq _ _ _ _ _ _ (by omega)]
  refine ⟨rfl, ?_, ?_⟩
  · rw [current_release_cached rfl d2 h2 m2 s2]
  · rw [current_release_path_cached rfl d2 h2 m2 s2]

/-- Witness for C9 on a concrete two-release host. -/
theorem C9_rollback_updates_cache_witness :
    2 ≤ ((Release.init "app" none).releases
      ⟨[["app", "releases", "a"], ["app", "releases", "b"]], []⟩).length ∧
    (((Release.init "app" none).rollback_release
        ⟨[["app", "releases", "a"], ["app", "releases", "b"]], []⟩
        ⟨2013, 1, 1⟩ 0 0 0).1.current_rel =
      some (((Release.init "app" none).releases
        ⟨[["app", "releases", "a"], ["app", "releases", "b"]], []⟩).getD
        ((((Release.init "app" none).releases
          ⟨[["app", "releases", "a"], ["app", "releases", "b"]], []⟩).length) - 2) "") ∧
     ((Release.init "app" none).rollback_release
        ⟨[["app", "releases", "a"], ["app", "releases", "b"]], []⟩
        ⟨2013, 1, 1⟩ 0 0 0).1.current_release ⟨2014, 2, 2⟩ 1 2 3 =
      (((Release.init "app" none).rollback_release
        ⟨[["app", "releases", "a"], ["app", "releases", "b"]], []⟩
        ⟨2013, 1, 1⟩ 0 0 0).1,
       ((Release.init "app" none).releases
        ⟨[["app", "releases", "a"], ["app", "releases", "b"]], []⟩).getD
        ((((Release.init "app" none).releases
          ⟨[["app", "releases", "a"], ["app", "releases", "b"]], []⟩).length) - 2) "") ∧
     (((Release.init "app" none).rollback_release
        ⟨[["app", "releases", "a"], ["app", "releases", "b"]], []⟩
        ⟨2013, 1, 1⟩ 0 0 0).1.current_release_path ⟨2014, 2, 2⟩ 1 2 3).2 =
      (Release.init "app" none).release_path ++
        [((Release.init "app" none).releases
          ⟨[["app", "releases", "a"], ["app", "releases", "b"]], []⟩).getD
          ((((Release.init "app" none).releases
            ⟨[["app", "releases", "a"], ["app", "releases", "b"]], []⟩).length) - 2) ""]) :=
  ⟨by decide, C9_rollback_updates_cache (Release.init "app" none)
    ⟨[["app", "releases", "a"], ["app", "releases", "b"]], []⟩
    ⟨2013, 1, 1⟩ 0 0 0 ⟨2014, 2, 2⟩ 1 2 3 (by decide)⟩

/-- C10: the compensating action registered at release creation carries
no captured path; executing it deletes the subtree at whatever path the
shared `env.base_dir` slot holds at the moment the rollback stack is
drained.  Consequently it removes the release directory when the slot
still holds it, and misses the release directory (deleting the
reassigned path instead) when the slot was reassigned in between. -/
theorem C10_revert_reads_env_at_drain (fs : FS) (relPath q : RPath)
    (hrel : relPath ∈ fs.dirs) (hq : underPath q relPath = false) :
    relPath ∉ (Transaction.drain [RbAction.revertRelease] relPath fs).dirs ∧
    relPath ∈ (Transaction.drain [RbAction.revertRelease] q fs).dirs ∧
    (∀ p, underPath q p = true →
      p ∉ (Transaction.drain [RbAction.revertRelease] q fs).dirs) := by
  have hdrain : ∀ env : RPath,
      Transaction.drain [RbAction.revertRelease] env fs = FS.rmRf fs env :=
    fun _ => rfl
  refine ⟨?_, ?_, ?_⟩
  · rw [hdrain]
    intro hmem
    have h2 := (mem_rmRf_dirs.mp hmem).2
    rw [underPath_self] at h2
    cases h2
  · rw [hdrain]
    exact mem_rmRf_dirs.mpr ⟨hrel, hq⟩
  · intro p hp
    rw [hdrain]
    intro hmem
    have h2 := (mem_rmRf_dirs.mp hmem).2
    rw [hp] at h2
    cases h2

/-- Witness for C10: draining with the slot intact deletes the release
directory; draining after the slot was reassigned to another path leaves
the release directory in place and deletes the other path. -/
theorem C10_revert_reads_env_at_drain_witness :
    ["app", "releases", "x"] ∈
      (⟨[["app", "releases", "x"], ["other"]], []⟩ : FS).dirs ∧
    underPath ["other"] ["app", "releases", "x"] = false ∧
    (["app", "releases", "x"] ∉
      (Transaction.drain [RbAction.revertRelease] ["app", "releases", "x"]
        ⟨[["app", "releases", "x"], ["other"]], []⟩).dirs ∧
     ["app", "releases", "x"] ∈
      (Transaction.drain [RbAction.revertRelease] ["other"]
        ⟨[["app", "releases", "x"], ["other"]], []⟩).dirs ∧
     (∀ p, underPath ["other"] p = true →
       p ∉ (Transaction.drain [RbAction.revertRelease] ["other"]
        ⟨[["app", "releases", "x"], ["other"]], []⟩).dirs)) :=
  ⟨by decide, by decide,
   C10_revert_reads_env_at_drain ⟨[["app", "releases", "x"], ["other"]], []⟩
     ["app", "releases", "x"] ["other"] (by decide) (by decide)⟩

/-- Witness for C2 on a concrete seven-release host: two releases are
pruned and the last five of the sorted listing remain. -/
theorem C2_pruning_keeps_sorted_top5_witness :
    ((Release.init "app" none).releases
      ⟨[["app", "releases", "r1"], ["app", "releases", "r2"], ["app", "releases", "r3"],
        ["app", "releases", "r4"], ["app", "releases", "r5"], ["app", "releases", "r6"],
        ["app", "releases", "r7"]], []⟩).Nodup ∧
    (((Release.init "app" none).releases ((Release.init "app" none).cleanup
      ⟨[["app", "releases", "r1"], ["app", "releases", "r2"], ["app", "releases", "r3"],
        ["app", "releases", "r4"], ["app", "releases", "r5"], ["app", "releases", "r6"],
        ["app", "releases", "r7"]], []⟩)).length ≤ 5 ∧
     (Release.init "app" none).releases ((Release.init "app" none).cleanup
      ⟨[["app", "releases", "r1"], ["app", "releases", "r2"], ["app", "releases", "r3"],
        ["app", "releases", "r4"], ["app", "releases", "r5"], ["app", "releases", "r6"],
        ["app", "releases", "r7"]], []⟩) =
      ((Release.init "app" none).releases
       ⟨[["app", "releases", "r1"], ["app", "releases", "r2"], ["app", "releases", "r3"],
         ["app", "releases", "r4"], ["app", "releases", "r5"], ["app", "releases", "r6"],
         ["app", "releases", "r7"]], []⟩).drop
        (((Release.init "app" none).releases
          ⟨[["app", "releases", "r1"], ["app", "releases", "r2"], ["app", "releases", "r3"],
            ["app", "releases", "r4"], ["app", "releases", "r5"], ["app", "releases", "r6"],
            ["app", "releases", "r7"]], []⟩).length - 5) ∧
     (∀ n ∈ ((Release.init "app" none).releases
        ⟨[["app", "releases", "r1"], ["app", "releases", "r2"], ["app", "releases", "r3"],
          ["app", "releases", "r4"], ["app", "releases", "r5"], ["app", "releases", "r6"],
          ["app", "releases", "r7"]], []⟩).take
        (((Release.init "app" none).releases
          ⟨[["app", "releases", "r1"], ["app", "releases", "r2"], ["app", "releases", "r3"],
            ["app", "releases", "r4"], ["app", "releases", "r5"], ["app", "releases", "r6"],
            ["app", "releases", "r7"]], []⟩).length - 5),
       ∀ p, underPath ((Release.init "app" none).release_path ++ [n]) p = true →
         p ∉ ((Release.init "app" none).cleanup
          ⟨[["app", "releases", "r1"], ["app", "releases", "r2"], ["app", "releases", "r3"],
            ["app", "releases", "r4"], ["app", "releases", "r5"], ["app", "releases", "r6"],
            ["app", "releases", "r7"]], []⟩).dirs)) :=
  ⟨by decide, C2_pruning_keeps_sorted_top5 (Release.init "app" none)
    ⟨[["app", "releases", "r1"], ["app", "releases", "r2"], ["app", "releases", "r3"],
      ["app", "releases", "r4"], ["app", "releases", "r5"], ["app", "releases", "r6"],
      ["app", "releases", "r7"]], []⟩ (by decide)⟩

/-- C2 counterexample to the claim as stated: pruning does not always
retain the 5 chronologically newest releases.  On a host holding the
seven ids generated on 2013-01-01 at seconds 90-95 and 100 since
midnight, the chronologically newest release (second 100, generated
after second 95) is itself pruned, because its unpadded name
`2013-01-01.100` sorts lexicographically first. -/
theorem C2_chronological_counterexample :
    Release._gen_rel ⟨2013, 1, 1⟩ 0 1 30 = "2013-01-01.90" ∧
    Release._gen_rel ⟨2013, 1, 1⟩ 0 1 40 = "2013-01-01.100" ∧
    (Release.init "app" none).releases
      ⟨[["app", "releases", "2013-01-01.90"], ["app", "releases", "2013-01-01.91"],
        ["app", "releases", "2013-01-01.92"], ["app", "releases", "2013-01-01.93"],
        ["app", "releases", "2013-01-01.94"], ["app", "releases", "2013-01-01.95"],
        ["app", "releases", "2013-01-01.100"]], []⟩ =
      ["2013-01-01.100", "2013-01-01.90", "2013-01-01.91", "2013-01-01.92",
       "2013-01-01.93", "2013-01-01.94", "2013-01-01.95"] ∧
    (Release.init "app" none).releases ((Release.init "app" none).cleanup
      ⟨[["app", "releases", "2013-01-01.90"], ["app", "releases", "2013-01-01.91"],
        ["app", "releases", "2013-01-01.92"], ["app", "releases", "2013-01-01.93"],
        ["app", "releases", "2013-01-01.94"], ["app", "releases", "2013-01-01.95"],
        ["app", "releases", "2013-01-01.100"]], []⟩) =
      ["2013-01-01.91", "2013-01-01.92", "2013-01-01.93", "2013-01-01.94",
       "2013-01-01.95"] ∧
    "2013-01-01.100" ∉ (Release.init "app" none).releases ((Release.init "app" none).cleanup
      ⟨[["app", "releases", "2013-01-01.90"], ["app", "releases", "2013-01-01.91"],
        ["app", "releases", "2013-01-01.92"], ["app", "releases", "2013-01-01.93"],
        ["app", "releases", "2013-01-01.94"], ["app", "releases", "2013-01-01.95"],
        ["app", "releases", "2013-01-01.100"]], []⟩) := by
  decide

theorem link_shared_create_lookup (r : Release) (relId : String)
    (hc : r.current_rel = some relId) (fs : FS) (d : Date) (hh mm ss : Nat)
    (n : String) (cp : RPath)
    (hcp : ¬ (r.release_path ++ [relId] ++ [n]) = cp) :
    lookupLink (match (r.link_shared fs d hh mm ss n true).2 with
      | Except.ok f => f
      | Except.error f => f) cp = lookupLink fs cp := by
  simp only [Release.link_shared, current_release_path_cached hc]
  by_cases h1 : pathExists fs (r.shared_path ++ [n]) = true
  · rw [if_pos h1]
    by_cases h2 : pathExists fs (r.release_path ++ [relId] ++ [n]) = true
    · rw [if_pos h2]
    · rw [if_neg h2]
      exact lookupLink_lnS_ne _ _ _ _ hcp
  · rw [if_neg h1, if_pos trivial]
    by_cases h2 : pathExists (FS.mkdir fs (r.shared_path ++ [n]))
        (r.release_path ++ [relId] ++ [n]) = true
    · rw [if_pos h2]
      exact lookupLink_mkdir _ _ _
    · rw [if_neg h2]
      rw [lookupLink_lnS_ne _ _ _ _ hcp]
      exact lookupLink_mkdir _ _ _

theorem linkLoop_lookup (r : Release) (relId : String)
    (hc : r.current_rel = some relId) (d : Date) (hh mm ss : Nat)
    (fa : Option Nat) (cp : RPath)
    (hcp : ∀ n : String, ¬ (r.release_path ++ [relId] ++ [n]) = cp) :
    ∀ (names : List String) (i : Nat) (fs : FS),
      lookupLink (Release.linkLoop r d hh mm ss fa names i fs).1 cp =
        lookupLink fs cp := by
  intro names
  induction names with
  | nil => intro i fs; rfl
  | cons n rest ih =>
    intro i fs
    simp only [Release.linkLoop]
    by_cases hf : fa = some i
    · rw [if_pos hf]
    · rw [if_neg hf, ih]
      exact link_shared_create_lookup r relId hc fs d hh mm ss n cp (hcp n)

/-- C3: any scoped deploy that fails after the release directory is
created — including a failure while linking shared resources, since the
compensating `revert_release` is registered between the `mkdir` and the
linking loop — drains the rollback stack on exit: afterwards the new
release directory (the value of `env.base_dir`) and everything beneath
it are gone from the host, and the `current` symlink is exactly what it
was before the deploy.  (`Transaction` itself is not in the source tree;
its drain discipline is modelled from the spec.)  The body is assumed not
to touch the `current` symlink, which the core only touches during
promotion. -/
theorem C3_rollback_completeness (bp : String) (sh : List String) (fs : FS)
    (d : Date) (hh mm ss : Nat) (fa : Option Nat) (body : FS → FS × Bool)
    (hbase : pathExists fs (Release.init bp (some sh)).base_path = true)
    (hbody : ∀ f : FS, lookupLink (body f).1 (Release.init bp (some sh)).current_path =
      lookupLink f (Release.init bp (some sh)).current_path)
    (hfail : ((Release.init bp (some sh)).runScoped fs d hh mm ss fa body).ok = false) :
    ((Release.init bp (some sh)).runScoped fs d hh mm ss fa body).envBaseDir =
      (Release.init bp (some sh)).release_path ++ [Release._gen_rel d hh mm ss] ∧
    (∀ p, underPath ((Release.init bp (some sh)).release_path ++
        [Release._gen_rel d hh mm ss]) p = true →
      p ∉ ((Release.init bp (some sh)).runScoped fs d hh mm ss fa body).fs.dirs) ∧
    lookupLink ((Release.init bp (some sh)).runScoped fs d hh mm ss fa body).fs
        (Release.init bp (some sh)).current_path =
      lookupLink fs (Release.init bp (some sh)).current_path := by
  set g := Release._gen_rel d hh mm ss with hg
  set r1 : Release := { Release.init bp (some sh) with current_rel := some g } with hr1
  set fs2 : FS := FS.mkdirP (FS.mkdirP (FS.mkdirP fs [bp, "releases"]) [bp, "shared"])
    [bp, "releases", g] with hfs2
  set lk := Release.linkLoop r1 d hh mm ss fa sh 0 fs2 with hlk
  set bd := body lk.1 with hbd
  have hrun : (Release.init bp (some sh)).runScoped fs d hh mm ss fa body =
      if lk.2 then
        (if bd.2 then
          ⟨(r1.symlink bd.1 d hh mm ss).1,
           ((r1.symlink bd.1 d hh mm ss).1).cleanup (r1.symlink bd.1 d hh mm ss).2,
           [bp, "releases", g], true⟩
        else ⟨r1, Transaction.drain [RbAction.revertRelease] [bp, "releases", g] bd.1,
              [bp, "releases", g], false⟩)
      else ⟨r1, Transaction.drain [RbAction.revertRelease] [bp, "releases", g] lk.1,
            [bp, "releases", g], false⟩ := by
    unfold Release.runScoped
    rw [if_pos hbase]
    rfl
  have hcp4 : ∀ n : String, ¬ (r1.release_path ++ [g] ++ [n]) = [bp, "current"] := by
    intro n h
    have hrp : r1.release_path = [bp, "releases"] := rfl
    have hl := congrArg List.length h
    rw [hrp] at hl
    simp [List.length_append] at hl
  have hlk_lookup : lookupLink lk.1 [bp, "current"] = lookupLink fs [bp, "current"] := by
    rw [hlk, linkLoop_lookup r1 g rfl d hh mm ss fa [bp, "current"] hcp4 sh 0 fs2, hfs2,
      lookupLink_mkdirP, lookupLink_mkdirP, lookupLink_mkdirP]
  have hcpath : (Release.init bp (some sh)).current_path = [bp, "current"] := rfl
  have hnotunder : underPath [bp, "releases", g] [bp, "current"] = false :=
    underPath_eq_false_of_length_lt (by simp)
  rw [hrun] at hfail ⊢
  rw [hcpath]
  by_cases h1 : lk.2 = true
  · rw [if_pos h1] at hfail ⊢
    by_cases h2 : bd.2 = true
    · rw [if_pos h2] at hfail
      cases hfail
    · rw [if_neg h2] at hfail ⊢
      refine ⟨rfl, ?_, ?_⟩
      · intro p hp hmem
        have h3 : underPath [bp, "releases", g] p = false := (mem_rmRf_dirs.mp hmem).2
        have hp2 : underPath [bp, "releases", g] p = true := hp
        rw [hp2] at h3
        cases h3
      · rw [show Transaction.drain [RbAction.revertRelease] [bp, "releases", g] bd.1 =
          FS.rmRf bd.1 [bp, "releases", g] from rfl]
        rw [lookupLink_rmRf hnotunder, hbd]
        have hb := hbody lk.1
        rw [hcpath] at hb
        rw [hb, hlk_lookup]
  · rw [if_neg h1] at hfail ⊢
    refine ⟨rfl, ?_, ?_⟩
    · intro p hp hmem
      have h3 : underPath [bp, "releases", g] p = false := (mem_rmRf_dirs.mp hmem).2
      have hp2 : underPath [bp, "releases", g] p = true := hp
      rw [hp2] at h3
      cases h3
    · rw [show Transaction.drain [RbAction.revertRelease] [bp, "releases", g] lk.1 =
        FS.rmRf lk.1 [bp, "releases", g] from rfl]
      rw [lookupLink_rmRf hnotunder, hlk_lookup]

/-- Witness for C3: a deploy that dies while linking the first shared
name (`failAt = 0`, before any link command runs) leaves no release
directory behind and the `current` symlink untouched. -/
theorem C3_rollback_completeness_witness :
    pathExists ⟨[["app"]], []⟩ (Release.init "app" (some ["log"])).base_path = true ∧
    (∀ f : FS, lookupLink ((fun f : FS => (f, true)) f).1
        (Release.init "app" (some ["log"])).current_path =
      lookupLink f (Release.init "app" (some ["log"])).current_path) ∧
    ((Release.init "app" (some ["log"])).runScoped ⟨[["app"]], []⟩ ⟨2013, 1, 1⟩ 0 0 0
      (some 0) (fun f : FS => (f, true))).ok = false ∧
    (((Release.init "app" (some ["log"])).runScoped ⟨[["app"]], []⟩ ⟨2013, 1, 1⟩ 0 0 0
        (some 0) (fun f : FS => (f, true))).envBaseDir =
      (Release.init "app" (some ["log"])).release_path ++
        [Release._gen_rel ⟨2013, 1, 1⟩ 0 0 0] ∧
     (∀ p, underPath ((Release.init "app" (some ["log"])).release_path ++
         [Release._gen_rel ⟨2013, 1, 1⟩ 0 0 0]) p = true →
       p ∉ ((Release.init "app" (some ["log"])).runScoped ⟨[["app"]], []⟩ ⟨2013, 1, 1⟩ 0 0 0
         (some 0) (fun f : FS => (f, true))).fs.dirs) ∧
     lookupLink ((Release.init "app" (some ["log"])).runScoped ⟨[["app"]], []⟩
         ⟨2013, 1, 1⟩ 0 0 0 (some 0) (fun f : FS => (f, true))).fs
         (Release.init "app" (some ["log"])).current_path =
       lookupLink ⟨[["app"]], []⟩ (Release.init "app" (some ["log"])).current_path) :=
  ⟨by decide, fun _ => rfl, by decide,
   C3_rollback_completeness "app" ["log"] ⟨[["app"]], []⟩ ⟨2013, 1, 1⟩ 0 0 0
     (some 0) (fun f : FS => (f, true)) (by decide) (fun _ => rfl) (by decide)⟩

/-- C4: the promotion-correctness claim fails on the code for some prior
release populations.  Promotion does run before pruning, and afterwards
the `current` symlink targets exactly the release directory created
during the invocation; but with six prior releases named for seconds
90-95 of 2013-01-01, a deploy at second 100 of the same day creates
`2013-01-01.100`, whose unpadded name sorts lexicographically first, so
the pruning step deletes the just-promoted release directory and the
`current` symlink is left dangling.  The deploy still reports success. -/
theorem C4_promotion_pruning_bug :
    Release._gen_rel ⟨2013, 1, 1⟩ 0 1 40 = "2013-01-01.100" ∧
    ((Release.init "app" (some [])).runScoped
      ⟨[["app"], ["app", "releases"], ["app", "shared"],
        ["app", "releases", "2013-01-01.90"], ["app", "releases", "2013-01-01.91"],
        ["app", "releases", "2013-01-01.92"], ["app", "releases", "2013-01-01.93"],
        ["app", "releases", "2013-01-01.94"], ["app", "releases", "2013-01-01.95"]],
       [(["app", "current"], ["app", "releases", "2013-01-01.95"])]⟩
      ⟨2013, 1, 1⟩ 0 1 40 none (fun f => (f, true))).ok = true ∧
    ((Release.init "app" (some [])).runScoped
      ⟨[["app"], ["app", "releases"], ["app", "shared"],
        ["app", "releases", "2013-01-01.90"], ["app", "releases", "2013-01-01.91"],
        ["app", "releases", "2013-01-01.92"], ["app", "releases", "2013-01-01.93"],
        ["app", "releases", "2013-01-01.94"], ["app", "releases", "2013-01-01.95"]],
       [(["app", "current"], ["app", "releases", "2013-01-01.95"])]⟩
      ⟨2013, 1, 1⟩ 0 1 40 none (fun f => (f, true))).envBaseDir = ["app", "releases", "2013-01-01.100"] ∧
    lookupLink ((Release.init "app" (some [])).runScoped
      ⟨[["app"], ["app", "releases"], ["app", "shared"],
        ["app", "releases", "2013-01-01.90"], ["app", "releases", "2013-01-01.91"],
        ["app", "releases", "2013-01-01.92"], ["app", "releases", "2013-01-01.93"],
        ["app", "releases", "2013-01-01.94"], ["app", "releases", "2013-01-01.95"]],
       [(["app", "current"], ["app", "releases", "2013-01-01.95"])]⟩
      ⟨2013, 1, 1⟩ 0 1 40 none (fun f => (f, true))).fs ["app", "current"] =
      some ["app", "releases", "2013-01-01.100"] ∧
    ["app", "releases", "2013-01-01.100"] ∉ ((Release.init "app" (some [])).runScoped
      ⟨[["app"], ["app", "releases"], ["app", "shared"],
        ["app", "releases", "2013-01-01.90"], ["app", "releases", "2013-01-01.91"],
        ["app", "releases", "2013-01-01.92"], ["app", "releases", "2013-01-01.93"],
        ["app", "releases", "2013-01-01.94"], ["app", "releases", "2013-01-01.95"]],
       [(["app", "current"], ["app", "releases", "2013-01-01.95"])]⟩
      ⟨2013, 1, 1⟩ 0 1 40 none (fun f => (f, true))).fs.dirs := by
  decide
